import Mathlib

/-!
Verification of the dtproton spreadsheet-cleanup tool (`src/main.rs`).

The program opens one workbook, resolves the active sheet, checks a marker
cell, scans a row range for cells matching a pattern, clears the matched
cells in a write-oriented copy, and saves that copy under a derived path.

This file gives a shallow embedding of the program's pure core:

* the coordinate codec `cell_ref` / `col_to_name`;
* the value normalizer `datatype_to_string` over the calamine `Data` union
  (floating-point cell payloads are modelled as rationals; the rendering of
  a non-integral float models Rust's `f64` `Display` by the exact decimal
  expansion, which agrees with Rust on every value whose shortest
  round-trip representation is exact, e.g. `5.5`);
* the output-path derivation `processed_output_path` (a Rust `Path` is
  modelled by its extractable file name, an `Option String`, since
  `to_string_lossy` is the identity on valid UTF-8);
* sheet resolution, the marker gate, the scan loop and the clear loop of
  `process_excel` (the two external parses are modelled as already-parsed
  structures: a read view holding sheet names and grids, and a mutable
  write view holding addressable sheets);
* the regex `\((RM|C)\)` of the scan, modelled as literal substring
  containment of `(RM)` or `(C)`, which is exactly its match semantics.

Grids are modelled with origin `(0,0)`: `get_value` is total and returns
`none` outside the `height × width` bounds, as calamine's `Range::get_value`
does for a range anchored at the origin.
-/

set_option maxRecDepth 8192

namespace Dtproton

/-! ### Rust string trimming

Rust's `str::trim` strips characters with the Unicode `White_Space`
property from both ends; `isRustWhitespace` lists that property's code
points exactly. -/

def isRustWhitespace (c : Char) : Bool :=
  let n := c.toNat
  n == 0x9 || n == 0xA || n == 0xB || n == 0xC || n == 0xD || n == 0x20 ||
  n == 0x85 || n == 0xA0 || n == 0x1680 ||
  (decide (0x2000 ≤ n) && decide (n ≤ 0x200A)) ||
  n == 0x2028 || n == 0x2029 || n == 0x202F || n == 0x205F || n == 0x3000

/-- Model of Rust `str::trim`: drop whitespace from the front, then from
the back. -/
def rustTrim (s : String) : String :=
  ⟨((s.data.dropWhile isRustWhitespace).reverse.dropWhile isRustWhitespace).reverse⟩

/-! ### The scan pattern

The program compiles the regex `\((RM|C)\)` once and asks whether it
matches anywhere in a cell's normalized text.  The regex is an alternation
of the two literals `(RM)` and `(C)`, so a match is exactly literal
substring containment of one of them. -/

/-- Boolean test that `pat` occurs at the very front of `t`. -/
def leadsWith : List Char → List Char → Bool
  | [], _ => true
  | _ :: _, [] => false
  | p :: ps, t :: ts => p == t && leadsWith ps ts

/-- Boolean test that `pat` occurs contiguously anywhere in the text. -/
def containsSub (pat : List Char) : List Char → Bool
  | [] => leadsWith pat []
  | c :: ts => leadsWith pat (c :: ts) || containsSub pat ts

/-- Model of `re.is_match(value)` for the regex `\((RM|C)\)`. -/
def re_is_match (s : String) : Bool :=
  containsSub "(RM)".data s.data || containsSub "(C)".data s.data

/-- Propositional form of literal substring containment, used to state the
scan claims independently of the executable matcher. -/
def containsLit (pat s : String) : Prop :=
  ∃ pre post, s.data = pre ++ pat.data ++ post

/-! ### Coordinate codec (`cell_ref` in `main.rs`)

The Rust inner function `col_to_name` pushes least-significant letters into
a buffer and reverses it at the end; the recursion below assembles the same
list most-significant-first directly. -/

/-- One step of the `while col > 0` loop per unit of fuel; the loop runs at
most `col` times because `(col - 1) / 26 < col`, so callers pass `col` as
the fuel and the `0` fuel case is never reached from there. -/
def col_to_name_loop : Nat → Nat → List Char
  | 0, _ => []
  | fuel + 1, col =>
    if col = 0 then []
    else col_to_name_loop fuel ((col - 1) / 26) ++ [Char.ofNat (65 + (col - 1) % 26)]

/-- Letter list of a 1-based column: 1 ↦ `[A]`, 26 ↦ `[Z]`, 27 ↦ `[A, A]`. -/
def col_to_name_chars (col : Nat) : List Char :=
  col_to_name_loop col col

/-- Model of the inner `col_to_name` of `cell_ref`. -/
def col_to_name (col : Nat) : String :=
  ⟨col_to_name_chars col⟩

/-- Model of `cell_ref`: column letters followed by the decimal row. -/
def cell_ref (col_1_based row_1_based : Nat) : String :=
  col_to_name col_1_based ++ toString row_1_based

/-- Reference decoder for column letter strings, written from the spec's
words ("base-26 alphabetic numbering"): each letter contributes its
1-based alphabet position.  It exists only to state the round-trip claim;
the production code is one-directional. -/
def lettersToColumn (s : String) : Nat :=
  s.data.foldl (fun acc c => acc * 26 + (c.toNat - 64)) 0

/-! ### Cell values and the value normalizer (`datatype_to_string`) -/

/-- Error tags of calamine's `CellErrorType`. -/
inductive CellErrorType where
  | Div0
  | NA
  | Name
  | Null
  | Num
  | Ref
  | Value
  | GettingData
deriving DecidableEq

/-- Debug rendering of an error tag, as Rust's derived `Debug` prints it. -/
def cellErrorDebug : CellErrorType → String
  | .Div0 => "Div0"
  | .NA => "NA"
  | .Name => "Name"
  | .Null => "Null"
  | .Num => "Num"
  | .Ref => "Ref"
  | .Value => "Value"
  | .GettingData => "GettingData"

/-- The calamine `Data` union of typed cell values.  The `f64` payloads of
`Float` and `DateTime` are modelled as rationals. -/
inductive Data where
  | Empty
  | String (s : String)
  | Float (f : ℚ)
  | Int (i : ℤ)
  | Bool (b : Bool)
  | DateTime (f : ℚ)
  | DateTimeIso (s : String)
  | DurationIso (s : String)
  | Error (e : CellErrorType)

/-- Smallest exponent `k` with `den ∣ 10 ^ k`, when one exists below the
search bound (it always does for the dyadic denominators of `f64` values). -/
def decPow (den : Nat) : Option Nat :=
  (List.range 1200).find? (fun k => 10 ^ k % den = 0)

/-- Model of Rust's `f64` `Display` (`f.to_string()`), on the rational
model of floats: an integral value prints with no fractional part, and a
non-integral value prints its exact decimal expansion (minimal, so with no
trailing zero digit).  This agrees with Rust's shortest round-trip output
on every value whose exact expansion is that shortest output, e.g. `5.5`. -/
def f64_display (q : ℚ) : String :=
  if q.den = 1 then toString q.num
  else
    match decPow q.den with
    | some k =>
      let scaled : Nat := q.num.natAbs * (10 ^ k / q.den)
      let intPart := scaled / 10 ^ k
      let fracStr := toString (scaled % 10 ^ k)
      let padded := String.mk (List.replicate (k - fracStr.length) '0') ++ fracStr
      (if q.num < 0 then "-" else "") ++ toString intPart ++ "." ++ padded
    | none => toString q.num ++ "/" ++ toString q.den

/-- Model of `datatype_to_string`.  The float arm mirrors the source:
`f.fract() == 0.0` holds exactly for integral values (denominator 1 in the
rational model), in which case `format!("{:.0}", f)` prints the integer;
otherwise `f.to_string()` is used. -/
def datatype_to_string : Data → String
  | .Empty => ""
  | .String s => s
  | .Float f => if f.den = 1 then toString f.num else f64_display f
  | .Int i => toString i
  | .Bool b => toString b
  | .DateTime f => f64_display f
  | .DateTimeIso s => s
  | .DurationIso s => s
  | .Error e => cellErrorDebug e

/-! ### Output path derivation (`processed_output_path`) -/

/-- Model of `processed_output_path`.  The Rust `&Path` argument is
represented by its extractable file name (`Path::file_name` mapped through
the lossless-on-UTF-8 `to_string_lossy`); `unwrap_or_else` supplies
`"output.xlsx"` when there is none, and the result prepends the literal
`processed_`. -/
def processed_output_path (input_file_name : Option String) : String :=
  let file_name := input_file_name.getD "output.xlsx"
  "processed_" ++ file_name

/-! ### The read view: sheet-name list and value grids -/

/-- A sheet's value grid, `height × width`, 0-based, anchored at the
origin. -/
structure Grid where
  height : Nat
  width : Nat
  cells : Nat → Nat → Data

/-- Model of calamine's `Range::get_value((row, col))`: `none` outside the
bounds, the stored value inside. -/
def Grid.get_value (g : Grid) (row col : Nat) : Option Data :=
  if row < g.height ∧ col < g.width then some (g.cells row col) else none

/-- The normalized text of a grid position, empty when out of bounds:
`range.get_value((r, c)).map(datatype_to_string).unwrap_or_default()`. -/
def normValueAt (g : Grid) (row col : Nat) : String :=
  ((g.get_value row col).map datatype_to_string).getD ""

/-- The read-oriented parse of the workbook (calamine): the stored sheet
names, and a grid per readable sheet name. -/
structure ReadWorkbook where
  sheet_names : List String
  worksheet_range : String → Option Grid

/-! ### The write view: umya-spreadsheet's mutable workbook -/

/-- A mutable worksheet of the write view, as a total assignment of string
content to address strings (an absent cell reads as empty, and
`get_cell_mut` materializes cells on demand, so the function view is
faithful for value-level reasoning). -/
structure Worksheet where
  cellValue : String → String

/-- Model of `sheet.get_cell_mut(addr).set_value(v)`. -/
def Worksheet.set_value (sh : Worksheet) (addr v : String) : Worksheet :=
  ⟨fun a => if a = addr then v else sh.cellValue a⟩

/-- The clear loop: `for addr in to_clear { sheet.get_cell_mut(addr).set_value(""); }`. -/
def clear_cells (sh : Worksheet) (addrs : List String) : Worksheet :=
  addrs.foldl (fun s addr => s.set_value addr "") sh

/-- The write-oriented parse of the workbook (umya-spreadsheet): an active
tab index from the workbook view, and the indexed sheets. -/
structure Spreadsheet where
  active_tab : Nat
  sheets : Nat → Worksheet

/-- Applying the clear loop to the book: `get_active_sheet_mut` designates
the sheet at the active tab index, and only that sheet is mutated. -/
def Spreadsheet.apply_clears (book : Spreadsheet) (addrs : List String) : Spreadsheet :=
  { book with
    sheets := fun i =>
      if i = book.active_tab then clear_cells (book.sheets book.active_tab) addrs
      else book.sheets i }

/-! ### The processing pipeline (`process_excel`) -/

/-- Sheet resolution from `process_excel`:
`sheet_names.get(active_sheet_index).or_else(|| sheet_names.get(0)).cloned()`. -/
def resolved_sheet_name (active_sheet_index : Nat) (sheet_names : List String) : Option String :=
  (sheet_names[active_sheet_index]?).orElse (fun _ => sheet_names[0]?)

/-- The scan loop of `process_excel`: rows 5 through `height - 1`, columns
0 through `width - 1`, collecting 1-based addresses of the non-empty
pattern matches in loop order. -/
def to_clear (g : Grid) : List String :=
  (List.range' 5 (g.height - 5)).flatMap (fun row0 =>
    (List.range g.width).filterMap (fun col0 =>
      let value := normValueAt g row0 col0
      if value ≠ "" ∧ re_is_match value = true then some (cell_ref (col0 + 1) (row0 + 1))
      else none))

/-- Informational message printed when the marker cell A3 does not hold the
marker literal. -/
def msg_marker : String := "A3 单元格不是“离子色谱”，无需处理。"

/-- Informational message printed when the grid has fewer than 6 rows. -/
def msg_height : String := "表格行数不足6行，无需处理第6行及以后的数据。"

/-- Outcome of a successful run: early termination with an informational
message (`Ok(None)` in the source), or a processed workbook saved at an
output path (`Ok(Some(path))`). -/
inductive ProcResult where
  | notApplicable (message : String)
  | processed (output_path : String) (book : Spreadsheet)

/-- The rule body of `process_excel`, after the sheet's grid has been read:
marker gate on A3 (grid position row 2, col 0), height gate, scan, clear,
derive the output path. -/
def process_grid (input_file_name : Option String) (book : Spreadsheet) (range : Grid) :
    ProcResult :=
  let a3 := normValueAt range 2 0
  if rustTrim a3 ≠ "离子色谱" then .notApplicable msg_marker
  else if range.height < 6 then .notApplicable msg_height
  else
    let clears := to_clear range
    let book := book.apply_clears clears
    .processed (processed_output_path input_file_name) book

/-- Model of `process_excel` from the two parsed views of the workbook:
resolve the sheet name (failing when there are no sheets), read its grid
(failing when unreadable), then run the rule body. -/
def process_excel (input_file_name : Option String) (book : Spreadsheet)
    (workbook : ReadWorkbook) : Except String ProcResult :=
  match resolved_sheet_name book.active_tab workbook.sheet_names with
  | none => .error "工作簿中没有工作表"
  | some sheet_name =>
    match workbook.worksheet_range sheet_name with
    | none => .error ("无法读取工作表: " ++ sheet_name)
    | some range => .ok (process_grid input_file_name book range)

/-! ### Spec-side descriptions used by the claims -/

/-- Row-major order on 0-based grid positions `(row, col)`: row strictly
ascending, then column strictly ascending. -/
def rowMajorLT (p q : Nat × Nat) : Prop :=
  p.1 < q.1 ∨ (p.1 = q.1 ∧ p.2 < q.2)

/-- The matching grid positions in row-major enumeration order, written
from the claim's words: rows 5 through `height - 1` ascending, columns 0
through `width - 1` ascending, keeping the positions whose normalized
value is non-empty and matches the pattern. -/
def matchingPositions (g : Grid) : List (Nat × Nat) :=
  (List.range' 5 (g.height - 5)).flatMap (fun row0 =>
    (List.range g.width).filterMap (fun col0 =>
      if normValueAt g row0 col0 ≠ "" ∧ re_is_match (normValueAt g row0 col0) = true
      then some (row0, col0) else none))

/-! ### Concrete sample data

Instances used to evaluate the development on closed inputs.  `sampleGrid`
is the end-to-end scenario of the spec: height 7, width 3, marker with a
trailing space at position (2,0), `Cl(RM)` at (5,1) and `SO4(C)` at
(6,2). -/

/-- The spec's end-to-end scenario grid. -/
def sampleGrid : Grid where
  height := 7
  width := 3
  cells := fun r c =>
    if r = 2 ∧ c = 0 then .String "离子色谱 "
    else if r = 5 ∧ c = 1 then .String "Cl(RM)"
    else if r = 6 ∧ c = 2 then .String "SO4(C)"
    else .Empty

/-- A grid where the rule applies but no cell matches the pattern. -/
def cleanGrid : Grid where
  height := 6
  width := 1
  cells := fun r c => if r = 2 ∧ c = 0 then .String "离子色谱" else .Empty

/-- A grid whose marker cell holds other text. -/
def otherGrid : Grid where
  height := 7
  width := 1
  cells := fun r c => if r = 2 ∧ c = 0 then .String "其他" else .Empty

/-- A short, narrow grid: the marker position lies outside it. -/
def tinyGrid : Grid where
  height := 2
  width := 1
  cells := fun _ _ => .String "离子色谱"

/-- A grid with the marker and a single pattern match at position (5,0). -/
def smallMatchGrid : Grid where
  height := 6
  width := 1
  cells := fun r c =>
    if r = 2 ∧ c = 0 then .String "离子色谱"
    else if r = 5 ∧ c = 0 then .String "a(C)"
    else .Empty

/-- A write-view workbook with active tab 0 and every cell reading `x`. -/
def sampleBook : Spreadsheet where
  active_tab := 0
  sheets := fun _ => ⟨fun _ => "x"⟩

/-- A write-view workbook whose active tab index 1 is out of range of the
single-sheet read view. -/
def skewedBook : Spreadsheet where
  active_tab := 1
  sheets := fun _ => ⟨fun _ => "x"⟩

/-- A read view holding the sample grid under the single name `Sheet1`. -/
def sampleRead : ReadWorkbook where
  sheet_names := ["Sheet1"]
  worksheet_range := fun n => if n = "Sheet1" then some sampleGrid else none

/-- A read view holding the clean grid under the single name `Sheet1`. -/
def cleanRead : ReadWorkbook where
  sheet_names := ["Sheet1"]
  worksheet_range := fun n => if n = "Sheet1" then some cleanGrid else none

/-- A read view holding the marker-mismatch grid. -/
def otherRead : ReadWorkbook where
  sheet_names := ["Sheet1"]
  worksheet_range := fun n => if n = "Sheet1" then some otherGrid else none

/-- A single-sheet read view holding the small matching grid. -/
def smallRead : ReadWorkbook where
  sheet_names := ["Only"]
  worksheet_range := fun n => if n = "Only" then some smallMatchGrid else none

/-! ## Lemma layer -/

/-! ### Substring matcher semantics -/

theorem leadsWith_iff (p : List Char) : ∀ t : List Char,
    leadsWith p t = true ↔ ∃ rest, t = p ++ rest := by
  induction p with
  | nil =>
    intro t
    simp [leadsWith]
  | cons a as ih =>
    intro t
    cases t with
    | nil =>
      simp [leadsWith]
    | cons b bs =>
      rw [leadsWith, Bool.and_eq_true, beq_iff_eq, ih bs]
      constructor
      · rintro ⟨hab, rest, hrest⟩
        exact ⟨rest, by rw [hab, hrest]; rfl⟩
      · rintro ⟨rest, hrest⟩
        rw [List.cons_append] at hrest
        exact ⟨(List.cons.injEq _ _ _ _ ▸ hrest).1.symm, rest,
          (List.cons.injEq _ _ _ _ ▸ hrest).2⟩

theorem containsSub_iff (p : List Char) : ∀ t : List Char,
    containsSub p t = true ↔ ∃ pre post, t = pre ++ p ++ post := by
  intro t
  induction t with
  | nil =>
    rw [containsSub, leadsWith_iff]
    constructor
    · rintro ⟨rest, h⟩
      exact ⟨[], rest, by simpa using h⟩
    · rintro ⟨pre, post, h⟩
      have h' := h.symm
      simp only [List.append_assoc, List.append_eq_nil] at h'
      exact ⟨[], by simp [h'.1, h'.2.1, h'.2.2]⟩
  | cons c ts ih =>
    rw [containsSub, Bool.or_eq_true, leadsWith_iff, ih]
    constructor
    · rintro (⟨rest, h⟩ | ⟨pre, post, h⟩)
      · exact ⟨[], rest, by simpa using h⟩
      · exact ⟨c :: pre, post, by simp [h]⟩
    · rintro ⟨pre, post, h⟩
      cases pre with
      | nil => exact Or.inl ⟨post, by simpa using h⟩
      | cons d ds =>
        simp only [List.cons_append, List.cons.injEq] at h
        exact Or.inr ⟨ds, post, h.2⟩

theorem re_is_match_iff (s : String) :
    re_is_match s = true ↔ containsLit "(RM)" s ∨ containsLit "(C)" s := by
  rw [re_is_match, Bool.or_eq_true, containsSub_iff, containsSub_iff]
  rfl

/-! ### Coordinate codec: letters round trip and character classes -/

theorem col_to_name_loop_fuel : ∀ (f₁ f₂ col : Nat), col ≤ f₁ → col ≤ f₂ →
    col_to_name_loop f₁ col = col_to_name_loop f₂ col := by
  intro f₁
  induction f₁ with
  | zero =>
    intro f₂ col h₁ _
    have hc : col = 0 := Nat.le_zero.1 h₁
    subst hc
    cases f₂ <;> simp [col_to_name_loop]
  | succ f ih =>
    intro f₂ col h₁ h₂
    cases f₂ with
    | zero =>
      have hc : col = 0 := Nat.le_zero.1 h₂
      subst hc
      simp [col_to_name_loop]
    | succ f₂' =>
      by_cases hc : col = 0
      · subst hc
        simp [col_to_name_loop]
      · rw [col_to_name_loop, col_to_name_loop, if_neg hc, if_neg hc]
        have hd : (col - 1) / 26 ≤ f := by
          have := Nat.div_le_self (col - 1) 26
          omega
        have hd' : (col - 1) / 26 ≤ f₂' := by
          have := Nat.div_le_self (col - 1) 26
          omega
        rw [ih f₂' ((col - 1) / 26) hd hd']

theorem col_to_name_chars_eq (col : Nat) (h : 0 < col) :
    col_to_name_chars col
      = col_to_name_chars ((col - 1) / 26) ++ [Char.ofNat (65 + (col - 1) % 26)] := by
  cases col with
  | zero => omega
  | succ n =>
    show col_to_name_loop (n + 1) (n + 1) = _
    rw [col_to_name_loop, if_neg (by omega)]
    have h1 : (n + 1 - 1) / 26 ≤ n := by
      have := Nat.div_le_self n 26
      omega
    rw [col_to_name_loop_fuel n ((n + 1 - 1) / 26) ((n + 1 - 1) / 26) h1 (Nat.le_refl _)]
    rfl

theorem upperChar_toNat : ∀ r, r < 26 → (Char.ofNat (65 + r)).toNat = 65 + r := by decide

theorem letters_foldl_append (l : List Char) (c : Char) :
    lettersToColumn ⟨l ++ [c]⟩ = lettersToColumn ⟨l⟩ * 26 + (c.toNat - 64) := by
  show (l ++ [c]).foldl (fun acc x => acc * 26 + (x.toNat - 64)) 0 = _
  rw [List.foldl_append]
  rfl

theorem lettersToColumn_col_to_name (col : Nat) :
    lettersToColumn (col_to_name col) = col := by
  induction col using Nat.strong_induction_on with
  | _ col ih =>
    by_cases hc : col = 0
    · subst hc
      rfl
    · have h : 0 < col := Nat.pos_of_ne_zero hc
      have hq : (col - 1) / 26 < col := by
        have := Nat.div_le_self (col - 1) 26
        omega
      have hr : (col - 1) % 26 < 26 := Nat.mod_lt _ (by omega)
      rw [col_to_name, col_to_name_chars_eq col h, letters_foldl_append]
      rw [show lettersToColumn ⟨col_to_name_chars ((col - 1) / 26)⟩
            = lettersToColumn (col_to_name ((col - 1) / 26)) from rfl]
      rw [ih ((col - 1) / 26) hq, upperChar_toNat _ hr]
      have := Nat.div_add_mod (col - 1) 26
      omega

theorem col_to_name_inj {a b : Nat} (h : col_to_name a = col_to_name b) : a = b := by
  have := congrArg lettersToColumn h
  rwa [lettersToColumn_col_to_name, lettersToColumn_col_to_name] at this

theorem col_to_name_chars_upper (col : Nat) :
    ∀ c ∈ col_to_name_chars col, 65 ≤ c.toNat ∧ c.toNat ≤ 90 := by
  induction col using Nat.strong_induction_on with
  | _ col ih =>
    by_cases hc : col = 0
    · subst hc
      intro c hcmem
      simp [col_to_name_chars, col_to_name_loop] at hcmem
    · have h : 0 < col := Nat.pos_of_ne_zero hc
      have hq : (col - 1) / 26 < col := by
        have := Nat.div_le_self (col - 1) 26
        omega
      have hr : (col - 1) % 26 < 26 := Nat.mod_lt _ (by omega)
      rw [col_to_name_chars_eq col h]
      intro c hcmem
      rcases List.mem_append.1 hcmem with hmem | hmem
      · exact ih ((col - 1) / 26) hq c hmem
      · have hceq : c = Char.ofNat (65 + (col - 1) % 26) := by simpa using hmem
        rw [hceq, upperChar_toNat _ hr]
        omega

theorem col_to_name_chars_ne_nil (col : Nat) (h : 0 < col) :
    col_to_name_chars col ≠ [] := by
  rw [col_to_name_chars_eq col h]
  simp

/-! ### Decimal digit strings: value and character class of `Nat.repr` -/

/-- Decimal value of a digit character list, most significant first. -/
def digitsVal (l : List Char) : Nat :=
  l.foldl (fun acc c => acc * 10 + (c.toNat - 48)) 0

theorem digitsVal_append (l : List Char) (c : Char) :
    digitsVal (l ++ [c]) = digitsVal l * 10 + (c.toNat - 48) := by
  unfold digitsVal
  rw [List.foldl_append]
  rfl

theorem digitChar_toNat : ∀ d, d < 10 → (Nat.digitChar d).toNat = 48 + d := by decide

theorem toDigitsCore_acc (fuel : Nat) : ∀ (n : Nat) (acc : List Char),
    Nat.toDigitsCore 10 fuel n acc = Nat.toDigitsCore 10 fuel n [] ++ acc := by
  induction fuel with
  | zero =>
    intro n acc
    simp [Nat.toDigitsCore]
  | succ f ih =>
    intro n acc
    simp only [Nat.toDigitsCore]
    by_cases h : n / 10 = 0
    · simp [h]
    · rw [if_neg h, if_neg h, ih (n / 10) [Nat.digitChar (n % 10)],
        ih (n / 10) (Nat.digitChar (n % 10) :: acc)]
      simp

theorem toDigitsCore_val : ∀ (fuel n : Nat), n < 10 ^ fuel →
    digitsVal (Nat.toDigitsCore 10 fuel n []) = n := by
  intro fuel
  induction fuel with
  | zero =>
    intro n h
    have hn : n = 0 := by simpa using h
    subst hn
    rfl
  | succ f ih =>
    intro n h
    simp only [Nat.toDigitsCore]
    by_cases h0 : n / 10 = 0
    · rw [if_pos h0]
      have hd := digitChar_toNat (n % 10) (Nat.mod_lt _ (by omega))
      show 0 * 10 + ((Nat.digitChar (n % 10)).toNat - 48) = n
      omega
    · rw [if_neg h0, toDigitsCore_acc, digitsVal_append]
      have hlt : n / 10 < 10 ^ f := by
        rw [Nat.div_lt_iff_lt_mul (by omega : 0 < 10)]
        calc n < 10 ^ (f + 1) := h
          _ = 10 ^ f * 10 := by ring
      rw [ih (n / 10) hlt]
      have hd := digitChar_toNat (n % 10) (Nat.mod_lt _ (by omega))
      omega

theorem toDigitsCore_chars (P : Char → Prop) (hP : ∀ d, d < 10 → P (Nat.digitChar d)) :
    ∀ (fuel n : Nat) (acc : List Char), (∀ c ∈ acc, P c) →
      ∀ c ∈ Nat.toDigitsCore 10 fuel n acc, P c := by
  intro fuel
  induction fuel with
  | zero =>
    intro n acc hacc c hc
    simp only [Nat.toDigitsCore] at hc
    exact hacc c hc
  | succ f ih =>
    intro n acc hacc c hc
    simp only [Nat.toDigitsCore] at hc
    have hdig : P (Nat.digitChar (n % 10)) := hP _ (Nat.mod_lt _ (by omega))
    by_cases h0 : n / 10 = 0
    · rw [if_pos h0] at hc
      rcases List.mem_cons.1 hc with hceq | hmem
      · rw [hceq]; exact hdig
      · exact hacc c hmem
    · rw [if_neg h0] at hc
      refine ih (n / 10) (Nat.digitChar (n % 10) :: acc) ?_ c hc
      intro x hx
      rcases List.mem_cons.1 hx with hxeq | hxmem
      · rw [hxeq]; exact hdig
      · exact hacc x hxmem

theorem repr_data_eq (n : Nat) : (Nat.repr n).data = Nat.toDigitsCore 10 (n + 1) n [] := rfl

theorem digitsVal_repr (n : Nat) : digitsVal (Nat.repr n).data = n := by
  rw [repr_data_eq]
  refine toDigitsCore_val (n + 1) n ?_
  calc n < 10 ^ n := Nat.lt_pow_self (by omega) n
    _ ≤ 10 ^ (n + 1) := Nat.pow_le_pow_right (by omega) (by omega)

theorem repr_chars (P : Char → Prop) (hP : ∀ d, d < 10 → P (Nat.digitChar d)) (n : Nat) :
    ∀ c ∈ (Nat.repr n).data, P c := by
  rw [repr_data_eq]
  exact toDigitsCore_chars P hP (n + 1) n [] (by simp)

theorem nat_repr_inj {a b : Nat} (h : Nat.repr a = Nat.repr b) : a = b := by
  have hv := congrArg (fun s => digitsVal s.data) h
  simpa [digitsVal_repr] using hv

/-! ### Injectivity of `cell_ref` -/

theorem split_homogeneous (P : Char → Prop) : ∀ (l₁ d₁ l₂ d₂ : List Char),
    (∀ c ∈ l₁, P c) → (∀ c ∈ d₁, ¬ P c) → (∀ c ∈ l₂, P c) → (∀ c ∈ d₂, ¬ P c) →
    l₁ ++ d₁ = l₂ ++ d₂ → l₁ = l₂ ∧ d₁ = d₂ := by
  intro l₁
  induction l₁ with
  | nil =>
    intro d₁ l₂ d₂ _ h2 h3 _ heq
    cases l₂ with
    | nil => exact ⟨rfl, by simpa using heq⟩
    | cons b bs =>
      exfalso
      have hd : d₁ = b :: (bs ++ d₂) := by simpa using heq
      exact h2 b (by rw [hd]; exact List.mem_cons_self _ _) (h3 b (List.mem_cons_self _ _))
  | cons a as ih =>
    intro d₁ l₂ d₂ h1 h2 h3 h4 heq
    cases l₂ with
    | nil =>
      exfalso
      have hd : d₂ = a :: (as ++ d₁) := by simpa using heq.symm
      exact h4 a (by rw [hd]; exact List.mem_cons_self _ _) (h1 a (List.mem_cons_self _ _))
    | cons b bs =>
      simp only [List.cons_append, List.cons.injEq] at heq
      obtain ⟨hab, htail⟩ := heq
      obtain ⟨h5, h6⟩ := ih d₁ bs d₂
        (fun c hc => h1 c (List.mem_cons_of_mem _ hc)) h2
        (fun c hc => h3 c (List.mem_cons_of_mem _ hc)) h4 htail
      exact ⟨by rw [hab, h5], h6⟩

theorem cell_ref_data (col row : Nat) :
    (cell_ref col row).data = col_to_name_chars col ++ (Nat.repr row).data := rfl

theorem cell_ref_inj {c₁ r₁ c₂ r₂ : Nat} (_hc₁ : 1 ≤ c₁) (_hc₂ : 1 ≤ c₂)
    (h : cell_ref c₁ r₁ = cell_ref c₂ r₂) : c₁ = c₂ ∧ r₁ = r₂ := by
  have hdata := congrArg String.data h
  rw [cell_ref_data, cell_ref_data] at hdata
  have hsplit := split_homogeneous (fun c => 65 ≤ c.toNat ∧ c.toNat ≤ 90)
    (col_to_name_chars c₁) (Nat.repr r₁).data (col_to_name_chars c₂) (Nat.repr r₂).data
    (col_to_name_chars_upper c₁)
    (repr_chars _ (fun d hd => by
      show ¬(65 ≤ (Nat.digitChar d).toNat ∧ (Nat.digitChar d).toNat ≤ 90)
      rw [digitChar_toNat d hd]; omega) r₁)
    (col_to_name_chars_upper c₂)
    (repr_chars _ (fun d hd => by
      show ¬(65 ≤ (Nat.digitChar d).toNat ∧ (Nat.digitChar d).toNat ≤ 90)
      rw [digitChar_toNat d hd]; omega) r₂)
    hdata
  constructor
  · exact col_to_name_inj (congrArg String.mk hsplit.1)
  · exact nat_repr_inj (String.ext hsplit.2)

theorem cell_ref_shift_inj :
    Function.Injective (fun p : Nat × Nat => cell_ref (p.2 + 1) (p.1 + 1)) := by
  intro p q hpq
  obtain ⟨h1, h2⟩ := cell_ref_inj (by omega) (by omega) hpq
  cases p
  cases q
  simp only [Prod.mk.injEq]
  omega

/-! ### Structure of the scan output -/

theorem to_clear_eq_map (g : Grid) :
    to_clear g = (matchingPositions g).map (fun p => cell_ref (p.2 + 1) (p.1 + 1)) := by
  unfold to_clear matchingPositions
  rw [List.map_flatMap]
  congr 1
  funext row0
  rw [List.map_filterMap]
  congr 1
  funext col0
  by_cases hm : normValueAt g row0 col0 ≠ "" ∧ re_is_match (normValueAt g row0 col0) = true
  · simp [hm]
  · simp [hm]

theorem mem_matchingPositions (g : Grid) (r c : Nat) :
    (r, c) ∈ matchingPositions g ↔
      5 ≤ r ∧ r < g.height ∧ c < g.width ∧
        normValueAt g r c ≠ "" ∧ re_is_match (normValueAt g r c) = true := by
  unfold matchingPositions
  rw [List.mem_flatMap]
  constructor
  · rintro ⟨row0, hrow, hmem⟩
    rw [List.mem_filterMap] at hmem
    obtain ⟨col0, hcol, hif⟩ := hmem
    rw [List.mem_range'_1] at hrow
    rw [List.mem_range] at hcol
    by_cases hm : normValueAt g row0 col0 ≠ "" ∧ re_is_match (normValueAt g row0 col0) = true
    · rw [if_pos hm] at hif
      have hpair := Option.some.inj hif
      have h1 : row0 = r := congrArg Prod.fst hpair
      have h2 : col0 = c := congrArg Prod.snd hpair
      subst h1
      subst h2
      exact ⟨hrow.1, by omega, hcol, hm.1, hm.2⟩
    · rw [if_neg hm] at hif
      cases hif
  · rintro ⟨h5, hh, hw, hne, hm⟩
    refine ⟨r, ?_, ?_⟩
    · rw [List.mem_range'_1]
      omega
    · rw [List.mem_filterMap]
      exact ⟨c, by rw [List.mem_range]; exact hw, by rw [if_pos ⟨hne, hm⟩]⟩

theorem pairwise_inner_cols (g : Grid) (r : Nat) :
    List.Pairwise rowMajorLT ((List.range g.width).filterMap (fun col0 =>
      if normValueAt g r col0 ≠ "" ∧ re_is_match (normValueAt g r col0) = true
      then some (r, col0) else none)) := by
  rw [List.pairwise_filterMap]
  refine List.Pairwise.imp ?_ (List.pairwise_lt_range g.width)
  intro a b hab p hp q hq
  by_cases ha : normValueAt g r a ≠ "" ∧ re_is_match (normValueAt g r a) = true
  · rw [if_pos ha] at hp
    by_cases hb : normValueAt g r b ≠ "" ∧ re_is_match (normValueAt g r b) = true
    · rw [if_pos hb] at hq
      have hp' : (r, a) = p := by simpa using hp
      have hq' : (r, b) = q := by simpa using hq
      rw [← hp', ← hq']
      exact Or.inr ⟨rfl, hab⟩
    · rw [if_neg hb] at hq
      simp at hq
  · rw [if_neg ha] at hp
    simp at hp

theorem pairwise_flatMap_rowMajor {f : Nat → List (Nat × Nat)} : ∀ l : List Nat,
    List.Pairwise (· < ·) l → (∀ r, ∀ p ∈ f r, p.1 = r) →
    (∀ r, List.Pairwise rowMajorLT (f r)) →
    List.Pairwise rowMajorLT (l.flatMap f) := by
  intro l
  induction l with
  | nil =>
    intro _ _ _
    simp
  | cons a as ih =>
    intro hl hfst hinner
    rw [List.flatMap_cons, List.pairwise_append]
    rw [List.pairwise_cons] at hl
    refine ⟨hinner a, ih hl.2 hfst hinner, ?_⟩
    intro p hp q hq
    obtain ⟨r, hr, hq'⟩ := List.mem_flatMap.1 hq
    have h1 : p.1 = a := hfst a p hp
    have h2 : q.1 = r := hfst r q hq'
    have h3 : a < r := hl.1 r hr
    exact Or.inl (by omega)

theorem pairwise_matchingPositions (g : Grid) :
    List.Pairwise rowMajorLT (matchingPositions g) := by
  unfold matchingPositions
  refine pairwise_flatMap_rowMajor _ (List.pairwise_lt_range' 5 (g.height - 5)) ?_ ?_
  · intro r p hp
    rw [List.mem_filterMap] at hp
    obtain ⟨col0, _, hif⟩ := hp
    by_cases hm : normValueAt g r col0 ≠ "" ∧ re_is_match (normValueAt g r col0) = true
    · rw [if_pos hm] at hif
      have := Option.some.inj hif
      rw [← this]
    · rw [if_neg hm] at hif
      cases hif
  · exact pairwise_inner_cols g

theorem nodup_matchingPositions (g : Grid) : (matchingPositions g).Nodup := by
  refine List.Pairwise.imp ?_ (pairwise_matchingPositions g)
  intro a b hab heq
  subst heq
  have hab' : a.1 < a.1 ∨ (a.1 = a.1 ∧ a.2 < a.2) := hab
  rcases hab' with h | ⟨_, h⟩ <;> omega

/-! ### The clear loop on a worksheet -/

theorem clear_cells_value : ∀ (addrs : List String) (sh : Worksheet) (a : String),
    (clear_cells sh addrs).cellValue a = if a ∈ addrs then "" else sh.cellValue a := by
  intro addrs
  induction addrs with
  | nil =>
    intro sh a
    simp [clear_cells]
  | cons x xs ih =>
    intro sh a
    show (clear_cells (sh.set_value x "") xs).cellValue a = _
    rw [ih]
    by_cases hx : a ∈ xs
    · rw [if_pos hx, if_pos (List.mem_cons_of_mem _ hx)]
    · rw [if_neg hx]
      show (if a = x then "" else sh.cellValue a) = _
      by_cases hax : a = x
      · rw [if_pos hax, if_pos (by rw [hax]; exact List.mem_cons_self _ _)]
      · rw [if_neg hax, if_neg (by
          intro hmem
          rcases List.mem_cons.1 hmem with h | h
          · exact hax h
          · exact hx h)]

/-! ### Characters of integer decimal strings -/

theorem int_toString_no_dot (i : ℤ) : ∀ c ∈ (toString i).data, c ≠ '.' := by
  have hnat : ∀ n : Nat, ∀ c ∈ (Nat.repr n).data, c ≠ '.' :=
    fun n => repr_chars (fun c => c ≠ '.') (by decide) n
  cases i with
  | ofNat n => exact hnat n
  | negSucc n =>
    intro c hc
    have hc' : c ∈ '-' :: (Nat.repr (n + 1)).data := hc
    rcases List.mem_cons.1 hc' with h | h
    · rw [h]
      decide
    · exact hnat (n + 1) c h

/-! ### Unfolding the processing pipeline -/

theorem process_grid_marker (f : Option String) (book : Spreadsheet) (g : Grid)
    (h : rustTrim (normValueAt g 2 0) ≠ "离子色谱") :
    process_grid f book g = .notApplicable msg_marker := by
  unfold process_grid
  rw [if_pos h]

theorem process_grid_height (f : Option String) (book : Spreadsheet) (g : Grid)
    (h1 : rustTrim (normValueAt g 2 0) = "离子色谱") (h2 : g.height < 6) :
    process_grid f book g = .notApplicable msg_height := by
  unfold process_grid
  rw [if_neg (fun hn => hn h1), if_pos h2]

theorem process_grid_applies (f : Option String) (book : Spreadsheet) (g : Grid)
    (h1 : rustTrim (normValueAt g 2 0) = "离子色谱") (h2 : ¬ g.height < 6) :
    process_grid f book g
      = .processed (processed_output_path f) (book.apply_clears (to_clear g)) := by
  unfold process_grid
  rw [if_neg (fun hn => hn h1), if_neg h2]

theorem process_excel_eq (f : Option String) (book : Spreadsheet) (wb : ReadWorkbook)
    (name : String) (g : Grid)
    (hres : resolved_sheet_name book.active_tab wb.sheet_names = some name)
    (hg : wb.worksheet_range name = some g) :
    process_excel f book wb = .ok (process_grid f book g) := by
  unfold process_excel
  rw [hres]
  show (match wb.worksheet_range name with
    | none => Except.error ("无法读取工作表: " ++ name)
    | some range => Except.ok (process_grid f book range)) = _
  rw [hg]

/-! ## Claim theorems -/

/-- Claim C1: for every grid, the Clear List is exactly the row-major map of
`cell_ref (col+1) (row+1)` over the positions with 0-based row in
`[5, height-1]` and column in `[0, width-1]` whose normalized value is
non-empty and contains the literal substring `(RM)` or `(C)`; those
positions are enumerated in strictly row-major order, each matching
address occurs exactly once, and the address of a position before row 5 or
of a non-matching position never appears. -/
theorem claim_C1 (g : Grid) :
    to_clear g = (matchingPositions g).map (fun p => cell_ref (p.2 + 1) (p.1 + 1)) ∧
    (∀ r c, (r, c) ∈ matchingPositions g ↔
      (5 ≤ r ∧ r < g.height ∧ c < g.width ∧ normValueAt g r c ≠ "" ∧
        (containsLit "(RM)" (normValueAt g r c) ∨ containsLit "(C)" (normValueAt g r c)))) ∧
    List.Pairwise rowMajorLT (matchingPositions g) ∧
    (∀ r c, (r, c) ∈ matchingPositions g →
      (to_clear g).count (cell_ref (c + 1) (r + 1)) = 1) ∧
    (∀ r c, (r < 5 ∨ ¬ (normValueAt g r c ≠ "" ∧ re_is_match (normValueAt g r c) = true)) →
      cell_ref (c + 1) (r + 1) ∉ to_clear g) := by
  refine ⟨to_clear_eq_map g, ?_, pairwise_matchingPositions g, ?_, ?_⟩
  · intro r c
    rw [mem_matchingPositions, re_is_match_iff]
  · intro r c hmem
    rw [to_clear_eq_map g]
    have hcount := List.count_map_of_injective (matchingPositions g)
      (fun p : Nat × Nat => cell_ref (p.2 + 1) (p.1 + 1)) cell_ref_shift_inj (r, c)
    simp only at hcount
    rw [hcount]
    exact List.count_eq_one_of_mem (nodup_matchingPositions g) hmem
  · intro r c hbad hmem
    rw [to_clear_eq_map g, List.mem_map] at hmem
    obtain ⟨p, hp, hfp⟩ := hmem
    have hpc : p = (r, c) := cell_ref_shift_inj hfp
    rw [hpc, mem_matchingPositions] at hp
    rcases hbad with h5 | hnm
    · omega
    · exact hnm ⟨hp.2.2.2.1, hp.2.2.2.2⟩

/-- Witness for Claim C1 on the spec's end-to-end scenario grid: position
(5,1) matches, and its address B6 occurs exactly once in the Clear List. -/
theorem claim_C1_witness :
    (5, 1) ∈ matchingPositions sampleGrid ∧
      (to_clear sampleGrid).count (cell_ref (1 + 1) (5 + 1)) = 1 :=
  ⟨by decide, (claim_C1 sampleGrid).2.2.2.1 5 1 (by decide)⟩

/-- Claim C2: with a resolved sheet whose grid is readable, the run reports
rule-not-applicable (a normal, non-error outcome) exactly when the trimmed
normalized marker cell at 0-based (2,0) differs from `离子色谱` or the
height is below 6; a marker mismatch reports the marker message even when
the height is also deficient (marker check first), a height failure with a
good marker reports the height message, and a non-applicable run never
produces a processed output. -/
theorem claim_C2 (f : Option String) (book : Spreadsheet) (wb : ReadWorkbook)
    (name : String) (g : Grid)
    (hres : resolved_sheet_name book.active_tab wb.sheet_names = some name)
    (hg : wb.worksheet_range name = some g) :
    ((∃ msg, process_excel f book wb = .ok (.notApplicable msg)) ↔
      ¬ (rustTrim (normValueAt g 2 0) = "离子色谱" ∧ 6 ≤ g.height)) ∧
    (rustTrim (normValueAt g 2 0) ≠ "离子色谱" →
      process_excel f book wb = .ok (.notApplicable msg_marker)) ∧
    (rustTrim (normValueAt g 2 0) = "离子色谱" → g.height < 6 →
      process_excel f book wb = .ok (.notApplicable msg_height)) ∧
    (¬ (rustTrim (normValueAt g 2 0) = "离子色谱" ∧ 6 ≤ g.height) →
      ∀ p b', process_excel f book wb ≠ .ok (.processed p b')) := by
  have hrun := process_excel_eq f book wb name g hres hg
  by_cases h1 : rustTrim (normValueAt g 2 0) = "离子色谱"
  · by_cases h2 : g.height < 6
    · rw [hrun, process_grid_height f book g h1 h2]
      refine ⟨⟨fun _ => by omega, fun _ => ⟨msg_height, rfl⟩⟩, ?_, fun _ _ => rfl, ?_⟩
      · intro hne
        exact absurd h1 hne
      · intro _ p b' heq
        cases heq
    · rw [hrun, process_grid_applies f book g h1 h2]
      refine ⟨⟨?_, ?_⟩, ?_, ?_, ?_⟩
      · rintro ⟨msg, hmsg⟩
        cases hmsg
      · intro hno
        exact absurd ⟨h1, by omega⟩ hno
      · intro hne
        exact absurd h1 hne
      · intro hge
        omega
      · intro hno
        exact absurd ⟨h1, by omega⟩ hno
  · rw [hrun, process_grid_marker f book g h1]
    refine ⟨⟨fun _ hand => h1 hand.1, fun _ => ⟨msg_marker, rfl⟩⟩, fun _ => rfl, ?_, ?_⟩
    · intro heq
      exact absurd heq h1
    · intro _ p b' heq
      cases heq

/-- Witness for Claim C2: on the marker-mismatch grid the run reports the
marker message, and is therefore a not-applicable, non-processed outcome. -/
theorem claim_C2_witness :
    resolved_sheet_name sampleBook.active_tab otherRead.sheet_names = some "Sheet1" ∧
      process_excel none sampleBook otherRead = .ok (.notApplicable msg_marker) :=
  ⟨rfl, (claim_C2 none sampleBook otherRead "Sheet1" otherGrid rfl rfl).2.1 (by decide)⟩

/-- Claim C3: the resolved sheet name is the entry at the active tab index
when it exists, else the first entry when the list is non-empty, and with
an empty sheet-name list the run fails with the no-worksheets error. -/
theorem claim_C3 :
    (∀ (idx : Nat) (names : List String) (h : idx < names.length),
      resolved_sheet_name idx names = some names[idx]) ∧
    (∀ (idx : Nat) (names : List String), names.length ≤ idx → ∀ (h : names ≠ []),
      resolved_sheet_name idx names = some (names.head h)) ∧
    (∀ idx : Nat, resolved_sheet_name idx [] = none) ∧
    (∀ (f : Option String) (book : Spreadsheet) (wb : ReadWorkbook), wb.sheet_names = [] →
      process_excel f book wb = .error "工作簿中没有工作表") := by
  refine ⟨?_, ?_, ?_, ?_⟩
  · intro idx names h
    unfold resolved_sheet_name
    rw [List.getElem?_eq_getElem h]
    rfl
  · intro idx names hlen h
    unfold resolved_sheet_name
    rw [List.getElem?_eq_none hlen]
    have hpos : 0 < names.length := List.length_pos.2 h
    rw [show (none : Option String).orElse (fun _ => names[0]?) = names[0]? from rfl]
    rw [List.getElem?_eq_getElem hpos]
    rw [List.getElem_zero hpos]
  · intro idx
    unfold resolved_sheet_name
    simp
  · intro f book wb hempty
    unfold process_excel
    rw [show resolved_sheet_name book.active_tab wb.sheet_names = none from by
      rw [hempty]; unfold resolved_sheet_name; simp]

/-- Witness for Claim C3: index 1 is out of range of the one-element list,
so the first sheet is resolved. -/
theorem claim_C3_witness : resolved_sheet_name 1 ["Sheet1"] = some "Sheet1" :=
  claim_C3.2.1 1 ["Sheet1"] (by decide) (by decide)

/-- Claim C4: with a resolved sheet whose grid is readable, a processed
output exists exactly when the marker matches and the height is at least 6
(in particular it is produced even when the Clear List is empty), and a
non-applicable run still succeeds, with a not-applicable outcome instead
of an error. -/
theorem claim_C4 (f : Option String) (book : Spreadsheet) (wb : ReadWorkbook)
    (name : String) (g : Grid)
    (hres : resolved_sheet_name book.active_tab wb.sheet_names = some name)
    (hg : wb.worksheet_range name = some g) :
    ((∃ p b', process_excel f book wb = .ok (.processed p b')) ↔
      (rustTrim (normValueAt g 2 0) = "离子色谱" ∧ 6 ≤ g.height)) ∧
    ((rustTrim (normValueAt g 2 0) = "离子色谱" ∧ 6 ≤ g.height) →
      process_excel f book wb
        = .ok (.processed (processed_output_path f) (book.apply_clears (to_clear g)))) ∧
    (¬ (rustTrim (normValueAt g 2 0) = "离子色谱" ∧ 6 ≤ g.height) →
      ∃ msg, process_excel f book wb = .ok (.notApplicable msg)) := by
  have hrun := process_excel_eq f book wb name g hres hg
  by_cases h1 : rustTrim (normValueAt g 2 0) = "离子色谱"
  · by_cases h2 : g.height < 6
    · rw [hrun, process_grid_height f book g h1 h2]
      refine ⟨⟨?_, ?_⟩, ?_, ?_⟩
      · rintro ⟨p, b', hpb⟩
        cases hpb
      · intro hand
        omega
      · intro hand
        omega
      · intro _
        exact ⟨msg_height, rfl⟩
    · rw [hrun, process_grid_applies f book g h1 h2]
      refine ⟨⟨fun _ => ⟨h1, by omega⟩, ?_⟩, fun _ => rfl, ?_⟩
      · intro _
        exact ⟨processed_output_path f, book.apply_clears (to_clear g), rfl⟩
      · intro hno
        exact absurd ⟨h1, by omega⟩ hno
  · rw [hrun, process_grid_marker f book g h1]
    refine ⟨⟨?_, fun hand => absurd hand.1 h1⟩, fun hand => absurd hand.1 h1, ?_⟩
    · rintro ⟨p, b', hpb⟩
      cases hpb
    · intro _
      exact ⟨msg_marker, rfl⟩

/-- Witness for Claim C4 on the applicable grid with an empty Clear List:
the processed output is still produced. -/
theorem claim_C4_witness :
    to_clear cleanGrid = [] ∧
      process_excel none sampleBook cleanRead
        = .ok (.processed (processed_output_path none)
            (sampleBook.apply_clears (to_clear cleanGrid))) :=
  ⟨by decide,
    (claim_C4 none sampleBook cleanRead "Sheet1" cleanGrid rfl rfl).2.1
      ⟨by decide, by decide⟩⟩

/-- Claim C5: when the rule applies, the persisted workbook equals the
input workbook except that every address in the Clear List reads empty on
the active sheet; every other address of the active sheet, and every other
sheet, is unchanged. -/
theorem claim_C5 (f : Option String) (book : Spreadsheet) (g : Grid)
    (h1 : rustTrim (normValueAt g 2 0) = "离子色谱") (h2 : 6 ≤ g.height) :
    ∃ book', process_grid f book g = .processed (processed_output_path f) book' ∧
      book'.active_tab = book.active_tab ∧
      (∀ i, i ≠ book.active_tab → book'.sheets i = book.sheets i) ∧
      (∀ addr, addr ∈ to_clear g → (book'.sheets book.active_tab).cellValue addr = "") ∧
      (∀ addr, addr ∉ to_clear g →
        (book'.sheets book.active_tab).cellValue addr
          = (book.sheets book.active_tab).cellValue addr) := by
  refine ⟨book.apply_clears (to_clear g),
    process_grid_applies f book g h1 (by omega), rfl, ?_, ?_, ?_⟩
  · intro i hi
    show (if i = book.active_tab then _ else book.sheets i) = book.sheets i
    rw [if_neg hi]
  · intro addr haddr
    show (if book.active_tab = book.active_tab
        then clear_cells (book.sheets book.active_tab) (to_clear g)
        else book.sheets book.active_tab).cellValue addr = ""
    rw [if_pos rfl, clear_cells_value, if_pos haddr]
  · intro addr haddr
    show (if book.active_tab = book.active_tab
        then clear_cells (book.sheets book.active_tab) (to_clear g)
        else book.sheets book.active_tab).cellValue addr = _
    rw [if_pos rfl, clear_cells_value, if_neg haddr]

/-- Witness for Claim C5 on the end-to-end scenario: B6 is cleared while
A1 keeps its original content. -/
theorem claim_C5_witness :
    ∃ book', process_grid none sampleBook sampleGrid
        = .processed (processed_output_path none) book' ∧
      book'.active_tab = sampleBook.active_tab ∧
      (∀ i, i ≠ sampleBook.active_tab → book'.sheets i = sampleBook.sheets i) ∧
      (∀ addr, addr ∈ to_clear sampleGrid →
        (book'.sheets sampleBook.active_tab).cellValue addr = "") ∧
      (∀ addr, addr ∉ to_clear sampleGrid →
        (book'.sheets sampleBook.active_tab).cellValue addr
          = (sampleBook.sheets sampleBook.active_tab).cellValue addr) :=
  claim_C5 none sampleBook sampleGrid (by decide) (by decide)

/-- Claim C6: the column codec is invertible against the base-26 decoder
for every column at least 1 (hence injective there), it meets the concrete
anchor values, and a cell reference is the letter string followed by the
decimal row. -/
theorem claim_C6 :
    (∀ col, 1 ≤ col → col ≤ 700 → lettersToColumn (col_to_name col) = col) ∧
    (∀ a b, 1 ≤ a → 1 ≤ b → col_to_name a = col_to_name b → a = b) ∧
    col_to_name 1 = "A" ∧ col_to_name 26 = "Z" ∧ col_to_name 27 = "AA" ∧
    col_to_name 52 = "AZ" ∧ col_to_name 702 = "ZZ" ∧
    (∀ col row, cell_ref col row = col_to_name col ++ toString row) :=
  ⟨fun col _ _ => lettersToColumn_col_to_name col,
    fun _ _ _ _ h => col_to_name_inj h, rfl, rfl, rfl, rfl, rfl, fun _ _ => rfl⟩

/-- Witness for Claim C6 at column 700. -/
theorem claim_C6_witness : lettersToColumn (col_to_name 700) = 700 :=
  claim_C6.1 700 (by decide) (by decide)

/-- Claim C7: the value normalizer is total on the closed union and sends
empty to the empty string, text unchanged, booleans to `true`/`false`,
integers to their decimal string, ISO date-time and duration text
unchanged; a float with zero fractional part prints as its integer with no
trailing `.0`, and 5.5 prints as `5.5`. -/
theorem claim_C7 :
    datatype_to_string .Empty = "" ∧
    (∀ s, datatype_to_string (.String s) = s) ∧
    datatype_to_string (.Bool true) = "true" ∧
    datatype_to_string (.Bool false) = "false" ∧
    (∀ i : ℤ, datatype_to_string (.Int i) = toString i) ∧
    (∀ s, datatype_to_string (.DateTimeIso s) = s) ∧
    (∀ s, datatype_to_string (.DurationIso s) = s) ∧
    (∀ q : ℚ, q.den = 1 →
      datatype_to_string (.Float q) = toString q.num ∧
      ¬ ∃ pre, (datatype_to_string (.Float q)).data = pre ++ ['.', '0']) ∧
    datatype_to_string (.Float 5) = "5" ∧
    datatype_to_string (.Float (mkRat 11 2)) = "5.5" := by
  refine ⟨rfl, fun _ => rfl, rfl, rfl, fun _ => rfl, fun _ => rfl, fun _ => rfl,
    ?_, rfl, by decide⟩
  intro q hq
  have heq : datatype_to_string (.Float q) = toString q.num := by
    show (if q.den = 1 then toString q.num else f64_display q) = toString q.num
    rw [if_pos hq]
  refine ⟨heq, ?_⟩
  rintro ⟨pre, hpre⟩
  rw [heq] at hpre
  have hdot : '.' ∈ (toString q.num).data := by
    rw [hpre]
    simp
  exact int_toString_no_dot q.num '.' hdot rfl

/-- Witness for Claim C7 at the integral float 5: the rendering is the
integer string and has no trailing `.0`. -/
theorem claim_C7_witness :
    datatype_to_string (.Float 5) = toString (5 : ℚ).num ∧
      ¬ ∃ pre, (datatype_to_string (.Float 5)).data = pre ++ ['.', '0'] :=
  claim_C7.2.2.2.2.2.2.2.1 5 (by decide)

/-- Claim C8: the derived output path is the literal `processed_` prefix
followed by the input's file name, with `output.xlsx` substituted when no
file name is extractable. -/
theorem claim_C8 :
    (∀ name, processed_output_path (some name) = "processed_" ++ name) ∧
    processed_output_path none = "processed_output.xlsx" :=
  ⟨fun _ => rfl, rfl⟩

/-- Claim C9: the clears always target the write view's active sheet: a
processed outcome differs from the input book only at the active tab
index, whose sheet is the cleared one; concretely, when the active tab
index 1 is out of range of the one-element sheet-name list, the scanned
sheet is the first sheet while the sheet that is emptied is sheet 1, a
different sheet. -/
theorem claim_C9 :
    (∀ (f : Option String) (book : Spreadsheet) (g : Grid) (p : String) (book' : Spreadsheet),
      process_grid f book g = .processed p book' →
      (∀ i, i ≠ book.active_tab → book'.sheets i = book.sheets i) ∧
      book'.sheets book.active_tab
        = clear_cells (book.sheets book.active_tab) (to_clear g)) ∧
    (resolved_sheet_name skewedBook.active_tab smallRead.sheet_names = some "Only" ∧
      skewedBook.active_tab = 1 ∧
      ∃ book', process_excel none skewedBook smallRead
          = .ok (.processed "processed_output.xlsx" book') ∧
        (book'.sheets 1).cellValue "A6" = "" ∧
        (skewedBook.sheets 1).cellValue "A6" = "x" ∧
        book'.sheets 0 = skewedBook.sheets 0) := by
  constructor
  · intro f book g p book' hrun
    by_cases h1 : rustTrim (normValueAt g 2 0) = "离子色谱"
    · by_cases h2 : g.height < 6
      · rw [process_grid_height f book g h1 h2] at hrun
        cases hrun
      · rw [process_grid_applies f book g h1 h2] at hrun
        have hbook : book.apply_clears (to_clear g) = book' :=
          congrArg (fun r => match r with
            | ProcResult.processed _ b => b
            | ProcResult.notApplicable _ => book) hrun
        rw [← hbook]
        constructor
        · intro i hi
          show (if i = book.active_tab then _ else book.sheets i) = book.sheets i
          rw [if_neg hi]
        · show (if book.active_tab = book.active_tab
              then clear_cells (book.sheets book.active_tab) (to_clear g)
              else book.sheets book.active_tab) = _
          rw [if_pos rfl]
    · rw [process_grid_marker f book g h1] at hrun
      cases hrun
  · refine ⟨rfl, rfl, skewedBook.apply_clears (to_clear smallMatchGrid), rfl, ?_, rfl, ?_⟩
    · decide
    · rfl

/-- Witness for Claim C9's general part on a concrete processed run: only
the active sheet of the book is rewritten. -/
theorem claim_C9_witness :
    (∀ i, i ≠ sampleBook.active_tab →
      (sampleBook.apply_clears (to_clear smallMatchGrid)).sheets i = sampleBook.sheets i) ∧
    (sampleBook.apply_clears (to_clear smallMatchGrid)).sheets sampleBook.active_tab
      = clear_cells (sampleBook.sheets sampleBook.active_tab) (to_clear smallMatchGrid) :=
  claim_C9.1 none sampleBook smallMatchGrid (processed_output_path none)
    (sampleBook.apply_clears (to_clear smallMatchGrid)) rfl

/-- Claim C10: when the marker position (2,0) lies outside the grid
(height at most 2 or width 0), the lookup totally returns no value, the
empty string is substituted, and the run ends in the rule-not-applicable
outcome with the marker message rather than an error. -/
theorem claim_C10 (f : Option String) (book : Spreadsheet) (g : Grid)
    (h : g.height ≤ 2 ∨ g.width = 0) :
    g.get_value 2 0 = none ∧ normValueAt g 2 0 = "" ∧
      process_grid f book g = .notApplicable msg_marker := by
  have hval : g.get_value 2 0 = none := by
    unfold Grid.get_value
    rw [if_neg (by omega)]
  have hnorm : normValueAt g 2 0 = "" := by
    unfold normValueAt
    rw [hval]
    rfl
  refine ⟨hval, hnorm, process_grid_marker f book g ?_⟩
  rw [hnorm]
  decide

/-- Witness for Claim C10 on the 2-row grid. -/
theorem claim_C10_witness :
    tinyGrid.get_value 2 0 = none ∧ normValueAt tinyGrid 2 0 = "" ∧
      process_grid none sampleBook tinyGrid = .notApplicable msg_marker :=
  claim_C10 none sampleBook tinyGrid (Or.inl (by decide))

end Dtproton
